import Mathlib

/-!
Verification of the FEMM 4.2 Python wrapper (`wrapper.py`).

The development shallowly embeds the wrapper's data model and operations:
Python dictionaries become total functions into `Option`, Python runtime
failures (`KeyError`, `TypeError`, `ZeroDivisionError`, `raise Exception`)
become an explicit `Except PyErr` result, and the external engine
(`mlab2femm`) together with Python's `eval` are abstracted as function
parameters, so every statement holds for every engine behaviour.
-/

set_option maxRecDepth 8192

/-- Python-level runtime failures raised by the wrapper code.
`exception` models `raise Exception(res)` in `call_femm`; the others model
the corresponding built-in Python exception classes. -/
inductive PyErr where
  | typeError (msg : String)
  | keyError
  | indexError
  | zeroDivisionError
  | exception (msg : String)
  deriving DecidableEq

/-- Python values that can come back from `eval` of an engine response:
numbers (modelled as rationals), strings and (nested) lists. -/
inductive PyVal where
  | num (q : ℚ)
  | str (s : String)
  | list (vs : List PyVal)

instance : Inhabited PyVal := ⟨PyVal.list []⟩

/-- Keys of the wrapper's doctype dictionaries: Python mixes integer keys
and string keys in `DOCTYPE_PREFIX_MAPPING`, so a key is either an ordinal
or a name. -/
inductive DoctypeKey where
  | ord (n : ℕ)
  | name (s : String)
  deriving DecidableEq

/-- `DOCTYPE_MAPPING` from the source: canonical names to the numbers used
by `new_document` (as written in the code: magnetics maps to 1, ..., current
to 4). A missing key is a Python `KeyError`, hence `Option`. -/
def DOCTYPE_MAPPING : String → Option ℕ
  | "magnetics" => some 1
  | "electrostatics" => some 2
  | "heat" => some 3
  | "current" => some 4
  | _ => none

/-- `DOCTYPE_PREFIX_MAPPING` from the source: both the ordinal (0-3) and the
canonical name of each physics domain map to its single-character command
string. -/
def DOCTYPE_PFX_MAPPING : DoctypeKey → Option String
  | .ord 0 => some "m"
  | .name "magnetics" => some "m"
  | .ord 1 => some "e"
  | .name "electrostatics" => some "e"
  | .ord 2 => some "h"
  | .name "heat" => some "h"
  | .ord 3 => some "c"
  | .name "current" => some "c"
  | _ => none

/-- `PREFIX_DOCTYPE_MAPPING` from the source: prefix character back to the
canonical name. -/
def PFX_DOCTYPE_MAPPING : String → Option String
  | "m" => some "magnetics"
  | "e" => some "electrostatics"
  | "h" => some "heat"
  | "c" => some "current"
  | _ => none

/-- `FEMMSession.set_mode`: look the doctype up in `DOCTYPE_PREFIX_MAPPING`
and store the resulting prefix (a missing key raises `KeyError`). The
returned string is the new value of the session's `doctype_prefix` field. -/
def set_mode (doctype : DoctypeKey) : Except PyErr String :=
  match DOCTYPE_PFX_MAPPING doctype with
  | some p => Except.ok p
  | none => Except.error PyErr.keyError

/-- The `FEMMSession.mode` property: `PREFIX_DOCTYPE_MAPPING[self.doctype_prefix]`.
Before any document is created the stored prefix is `None`, and the lookup
raises `KeyError`. -/
def mode_of (dtp : Option String) : Except PyErr String :=
  match dtp with
  | none => Except.error PyErr.keyError
  | some p =>
    match PFX_DOCTYPE_MAPPING p with
    | some n => Except.ok n
    | none => Except.error PyErr.keyError

/-- Composition used by claim C9: call `set_mode` and then read the `mode`
property off the freshly stored prefix. -/
def set_mode_then_read (k : DoctypeKey) : Except PyErr String := do
  let p ← set_mode k
  mode_of (some p)

/-- The doctype-normalisation step of `FEMMSession.new_document`: a string
argument goes through `DOCTYPE_MAPPING` first, a number is used directly;
the result is handed to `set_mode` as an ordinal. (The `newdocument(...)`
engine call itself carries no decoding logic and is elided.) -/
def new_document_set_mode (doctype : DoctypeKey) : Except PyErr String :=
  match doctype with
  | .name s =>
    match DOCTYPE_MAPPING s with
    | some m => set_mode (.ord m)
    | none => Except.error PyErr.keyError
  | .ord m => set_mode (.ord m)

/-- Python `len` on a decoded value: defined for lists and strings, a
`TypeError` on numbers (as in CPython). -/
def pyLen : PyVal → Except PyErr ℕ
  | .num _ => Except.error (PyErr.typeError "object has no len")
  | .str s => Except.ok s.length
  | .list vs => Except.ok vs.length

/-- Python `res[0]` on a decoded value. -/
def pyGet0 : PyVal → Except PyErr PyVal
  | .num _ => Except.error (PyErr.typeError "object is not subscriptable")
  | .str s =>
    if s.length = 0 then Except.error PyErr.indexError
    else Except.ok (PyVal.str (String.singleton s.front))
  | .list [] => Except.error PyErr.indexError
  | .list (v :: _) => Except.ok v

/-- The response-decoding tail of `FEMMSession.call_femm`, acting on the raw
text returned by `mlab2femm`:
empty text becomes `[]`; text whose first character is `'e'` raises
`Exception(res)` with the whole response text; otherwise the text is passed
to Python `eval` (abstracted as the parameter `evalFn`); finally a decoded
value of length one is unwrapped to its single element. -/
def call_femm_decode (evalFn : String → PyVal) (res : String) : Except PyErr PyVal :=
  match
    (if res.length = 0 then Except.ok (PyVal.list [])
     else if res.front = 'e' then Except.error (PyErr.exception res)
     else Except.ok (evalFn res) : Except PyErr PyVal) with
  | Except.error e => Except.error e
  | Except.ok v =>
    match pyLen v with
    | Except.error e => Except.error e
    | Except.ok n => if n = 1 then pyGet0 v else Except.ok v

/-- `FEMMSession._add_doctype_prefix`: `self.doctype_prefix + string`.
Before a mode is set the stored prefix is `None`, and `None + str` raises a
`TypeError` in Python (this failure is the spec's `StateError`). -/
def _add_doctype_pfx (dtp : Option String) (s : String) : Except PyErr String :=
  match dtp with
  | none => Except.error (PyErr.typeError "unsupported operand types for +: NoneType and str")
  | some p => Except.ok (p ++ s)

/-- The command string `call_femm` hands to `mlab2femm`, or the error raised
before anything is submitted: with `add_doctype_prefix=True` the doctype
prefix is prepended first (raising `TypeError` when it is still `None`). -/
def submitted_command (dtp : Option String) (s : String) (add_dt : Bool) : Except PyErr String :=
  if add_dt then _add_doctype_pfx dtp s else Except.ok s

/-- `FEMMSession.call_femm`, with the engine round trip `mlab2femm` and
Python `eval` abstracted as parameters: compose the submitted command (the
prefixing step runs before the engine is invoked), feed it to the engine,
and decode the response text. -/
def call_femm (mlab2femm : String → String) (evalFn : String → PyVal)
    (dtp : Option String) (s : String) (add_dt : Bool) : Except PyErr PyVal :=
  match submitted_command dtp s add_dt with
  | Except.error e => Except.error e
  | Except.ok cmd => call_femm_decode evalFn (mlab2femm cmd)

/-- `BaseAPI._add_mode_prefix`: interpolates to `mode_prefix ++ "_" ++ string`. -/
def _add_mode_pfx (mp s : String) : String := mp ++ "_" ++ s

/-- `BaseAPI._call_femm`: wrap the command name with the sub-router prefix
and an empty call-parenthesis pair, then submit through the session. -/
def api_call_femm (mlab2femm : String → String) (evalFn : String → PyVal)
    (dtp : Option String) (mp s : String) (add_dt : Bool) : Except PyErr PyVal :=
  call_femm mlab2femm evalFn dtp (_add_mode_pfx mp s ++ "()") add_dt

/-- A command argument as accepted by `call_femm_with_args`: a Python
integer, a Python float, or a piece of text. A float is modelled by the
data of its decimal rendering - sign, integer part, fractional digits -
which is what Python `str` prints for a finite float (its shortest
round-tripping decimal, always with at least one fractional digit), e.g.
`float false 1 [5]` for `1.5` and `float true 0 [2, 5]` for `-0.25`. The
IEEE bit pattern behind that rendering, and the exponent notation `str`
switches to for magnitudes at least `1e16` or below `1e-4`, are
floating-point specifics outside the embedding; every decimal-point
rendering is covered. -/
inductive Arg where
  | num (n : ℤ)
  | float (neg : Bool) (ip : ℕ) (fd : List ℕ)
  | str (s : String)
  deriving DecidableEq

/-- A decimal digit character: `'0'` + d. -/
def decDigit (d : ℕ) : Char := Char.ofNat (48 + d)

/-- The numeric value denoted by a list of decimal digit characters. -/
def digitsVal (cs : List Char) : ℕ := cs.foldl (fun a c => 10 * a + (c.toNat - 48)) 0

/-- Decimal rendering of a natural number, most significant digit first
(the digit characters of Python `str(n)` for `n ≥ 0`). -/
def natToChars (n : ℕ) : List Char :=
  if _h : n < 10 then [decDigit n]
  else natToChars (n / 10) ++ [decDigit (n % 10)]
termination_by n
decreasing_by omega

/-- Decimal rendering of an integer: Python `str` prepends `'-'` for
negative values. -/
def intToChars (n : ℤ) : List Char :=
  if n < 0 then '-' :: natToChars n.natAbs else natToChars n.natAbs

/-- Python `str` on an integer argument. -/
def pyStrOfInt (n : ℤ) : String := String.mk (intToChars n)

/-- Python `str` on a float argument, reassembled from its
decimal-rendering data: optional minus sign, integer part, a point, the
fractional digits. -/
def pyStrOfFloat (neg : Bool) (ip : ℕ) (fd : List ℕ) : String :=
  String.mk ((if neg then ['-'] else []) ++ (natToChars ip ++ '.' :: fd.map decDigit))

/-- The per-argument conversion inside `FEMMSession._parse_args`:
a text argument is wrapped verbatim in double quotes, anything else is
rendered with `str`. -/
def encodeArg : Arg → String
  | .str s => "\"" ++ s ++ "\""
  | .num n => pyStrOfInt n
  | .float neg ip fd => pyStrOfFloat neg ip fd

/-- Python `', '.join`: empty for no parts, the single part alone, parts
joined by a comma and a space otherwise. -/
def joinComma : List String → String
  | [] => ""
  | [s] => s
  | s :: t :: rest => s ++ ", " ++ joinComma (t :: rest)

/-- `FEMMSession._parse_args`: convert each argument to a string, join them
by commas, and wrap the whole list in parentheses. -/
def _parse_args (args : List Arg) : String :=
  "(" ++ joinComma (args.map encodeArg) ++ ")"

/-- `FEMMSession.call_femm_with_args`: with `add_doctype_prefix=True` the
doctype prefix is prepended to the command name (raising `TypeError` when no
mode is set, before any engine call), the encoded argument list is appended,
and the result is submitted through `call_femm` with its default
`add_doctype_prefix=False`. -/
def call_femm_with_args (mlab2femm : String → String) (evalFn : String → PyVal)
    (dtp : Option String) (command : String) (args : List Arg) (add_dt : Bool) :
    Except PyErr PyVal :=
  if add_dt then
    match _add_doctype_pfx dtp command with
    | Except.error e => Except.error e
    | Except.ok pc => call_femm mlab2femm evalFn dtp (pc ++ _parse_args args) false
  else call_femm mlab2femm evalFn dtp (command ++ _parse_args args) false

/-- Well-formed argument: a text literal with no embedded double-quote
character, a float whose rendering data is a genuine decimal (at least one
fractional digit, every digit below ten - exactly what Python `str`
emits), or any integer. -/
def validArg : Arg → Bool
  | .num _ => true
  | .float _ _ fd => decide (fd ≠ [] ∧ ∀ d ∈ fd, d < 10)
  | .str s => decide ('"' ∉ s.data)

/-- Modelled from the spec: the engine's literal grammar for one argument of
a scripted call, a natural-number literal (maximal run of decimal digits). -/
def parseNatLit (cs : List Char) : Option (ℕ × List Char) :=
  let ds := cs.takeWhile Char.isDigit
  if ds = [] then none
  else some (digitsVal ds, cs.dropWhile Char.isDigit)

/-- Modelled from the spec: after the integer digits of a number literal,
an optional point with fractional digits makes it a decimal literal,
otherwise it stays an integer literal. -/
def parseFracOrInt (n : ℕ) (rest : List Char) : Option (Arg × List Char) :=
  if rest.head? = some '.' then
    let fds := rest.tail.takeWhile Char.isDigit
    if fds = [] then none
    else some (Arg.float false n (fds.map (fun c => c.toNat - 48)),
               rest.tail.dropWhile Char.isDigit)
  else some (Arg.num (n : ℤ), rest)

/-- Modelled from the spec: an unsigned number literal, integer digits
followed by an optional fractional part. -/
def parseUnsignedNum (cs : List Char) : Option (Arg × List Char) :=
  (parseNatLit cs).bind (fun p => parseFracOrInt p.1 p.2)

/-- Sign application for a parsed leading minus: negates an integer
literal and marks a decimal literal negative (a text literal never follows
a sign in the grammar). -/
def negArg : Arg → Arg
  | .num n => .num (-n)
  | .float _ ip fd => .float true ip fd
  | .str s => .str s

/-- Modelled from the spec: a number literal, an optional leading minus
sign followed by an unsigned integer or decimal literal. -/
def parseNumLit (cs : List Char) : Option (Arg × List Char) :=
  match cs with
  | [] => none
  | c :: rest =>
    if c = '-' then (parseUnsignedNum rest).map (fun p => (negArg p.1, p.2))
    else parseUnsignedNum (c :: rest)

/-- Modelled from the spec: one argument literal, either a double-quoted
text literal (read verbatim up to the closing quote) or a number literal. -/
def parseItem (cs : List Char) : Option (Arg × List Char) :=
  match cs with
  | [] => none
  | c :: rest =>
    if c = '"' then
      match rest.dropWhile (fun x => x != '"') with
      | '"' :: rest2 => some (Arg.str (String.mk (rest.takeWhile (fun x => x != '"'))), rest2)
      | _ => none
    else parseNumLit (c :: rest)

/-- Modelled from the spec: a non-empty comma-separated argument sequence
(items joined by a comma and a space), with fuel for termination. -/
def parseItemsAux : ℕ → List Char → Option (List Arg × List Char)
  | 0, _ => none
  | fuel + 1, cs =>
    match parseItem cs with
    | none => none
    | some (a, rest) =>
      match rest with
      | ',' :: ' ' :: rest2 =>
        match parseItemsAux fuel rest2 with
        | some p => some (a :: p.1, p.2)
        | none => none
      | _ => some ([a], rest)

/-- Modelled from the spec: the engine's call-argument grammar over a
character list, a parenthesized, possibly empty, comma-separated list of
literals. -/
def decodeArgsList (cs : List Char) : Option (List Arg) :=
  match cs with
  | '(' :: rest =>
    if rest = [')'] then some []
    else
      match parseItemsAux (rest.length + 1) rest with
      | some p => if p.2 = [')'] then some p.1 else none
      | none => none
  | _ => none

/-- Modelled from the spec: the engine's call-argument grammar on a string. -/
def decodeArgs (s : String) : Option (List Arg) := decodeArgsList s.data

/-- A 2-D point with rational coordinates. The wrapper computes with IEEE
floats; the geometry claims proved below are structural (list length,
identity of the unrotated copy) and hold for every arithmetic
interpretation, so the trigonometric functions and the 5-decimal rounding
of `numpy` are abstracted in `FloatModel`. -/
abbrev Point := ℚ × ℚ

/-- Abstraction of the floating-point ingredients of
`draw_polyline_pattern`: the constant `2 * np.pi`, `np.cos`, `np.sin`, and
`np.round(·, decimals=5)`. -/
structure FloatModel where
  twoPi : ℚ
  cosQ : ℚ → ℚ
  sinQ : ℚ → ℚ
  round5 : ℚ → ℚ

/-- One rotated point of `draw_polyline_pattern`: translate by `-center`,
apply the 2-D rotation matrix for `angle`, translate back by `+center`, and
round both coordinates to 5 decimals. -/
def rotatePoint (fm : FloatModel) (center : Point) (angle : ℚ) (p : Point) : Point :=
  let t : Point := (p.1 - center.1, p.2 - center.2)
  let r : Point := (fm.cosQ angle * t.1 - fm.sinQ angle * t.2,
                    fm.sinQ angle * t.1 + fm.cosQ angle * t.2)
  (fm.round5 (r.1 + center.1), fm.round5 (r.2 + center.2))

/-- The accumulation loop of `draw_polyline_pattern`: `ret` starts as
`[points]`; iteration `i = 0` draws the original shape and leaves `ret`
unchanged, every later iteration appends the rotated copy `g i`. -/
def pattern_fold (g : ℕ → List Point) (points : List Point) (rep : ℕ) : List (List Point) :=
  (List.range rep).foldl (fun ret i => if i = 0 then ret else ret ++ [g i]) [points]

/-- `PreprocessorAPI.draw_polyline_pattern`: `change_in_angle = 2π / repeat`
(a `ZeroDivisionError` when `repeat = 0`), then the loop drawing the
original shape at index 0 and a copy rotated by `change_in_angle * i` about
`center` for each `1 ≤ i < repeat`, returning the accumulated list of
shapes. The draw calls per shape are engine side effects carrying no
decoding logic and are elided. -/
def draw_polyline_pattern (fm : FloatModel) (points : List Point) (center : Point)
    (rep : ℕ) : Except PyErr (List (List Point)) :=
  if rep = 0 then Except.error PyErr.zeroDivisionError
  else
    Except.ok (pattern_fold
      (fun i => points.map (rotatePoint fm center (fm.twoPi / (rep : ℚ) * (i : ℚ))))
      points rep)

/-- The first replace of `FEMMSession._fix_path`: `path.replace('\\', '/')`.
For a single-character pattern Python's left-to-right replacement is a map. -/
def replaceBackslash (cs : List Char) : List Char :=
  cs.map (fun c => if c = '\\' then '/' else c)

/-- The second replace of `FEMMSession._fix_path`: `path.replace('//', '/')`,
Python's single left-to-right non-overlapping pass. -/
def collapseSlash : List Char → List Char
  | [] => []
  | [c] => [c]
  | a :: b :: rest =>
    if a = '/' ∧ b = '/' then '/' :: collapseSlash rest
    else a :: collapseSlash (b :: rest)

/-- `FEMMSession._fix_path`: replace every backslash by a forward slash,
then collapse doubled forward slashes in one pass. -/
def _fix_path (path : String) : String :=
  String.mk (collapseSlash (replaceBackslash path.data))

/-- Whether a character list contains two consecutive forward slashes. -/
def hasDoubleSlash : List Char → Bool
  | a :: b :: rest => (a = '/' && b = '/') || hasDoubleSlash (b :: rest)
  | _ => false

/-- Whether a character list contains three consecutive forward slashes. -/
def hasRun3Slash : List Char → Bool
  | a :: b :: c :: rest => (a = '/' && b = '/' && c = '/') || hasRun3Slash (b :: c :: rest)
  | _ => false

/-- Claim C1: for every canonical mode, `set_mode` by canonical name and by
the equivalent ordinal code (magnetics=0, electrostatics=1, heat=2,
current=3) store the identical single-character doctype prefix, the one
prepended to all subsequent mode-prefixed commands. -/
theorem claim_C1_name_ordinal_same_pfx :
    (set_mode (.name "magnetics") = set_mode (.ord 0)
      ∧ set_mode (.ord 0) = Except.ok "m")
    ∧ (set_mode (.name "electrostatics") = set_mode (.ord 1)
      ∧ set_mode (.ord 1) = Except.ok "e")
    ∧ (set_mode (.name "heat") = set_mode (.ord 2)
      ∧ set_mode (.ord 2) = Except.ok "h")
    ∧ (set_mode (.name "current") = set_mode (.ord 3)
      ∧ set_mode (.ord 3) = Except.ok "c") :=
  ⟨⟨rfl, rfl⟩, ⟨rfl, rfl⟩, ⟨rfl, rfl⟩, ⟨rfl, rfl⟩⟩

/-- Claim C9: for each of the four canonical mode names, `set_mode` with
that name followed by reading the `mode` property returns the same name:
the name-to-prefix-to-name mapping round-trips. -/
theorem claim_C9_mode_roundtrip :
    set_mode_then_read (.name "magnetics") = Except.ok "magnetics"
    ∧ set_mode_then_read (.name "electrostatics") = Except.ok "electrostatics"
    ∧ set_mode_then_read (.name "heat") = Except.ok "heat"
    ∧ set_mode_then_read (.name "current") = Except.ok "current" :=
  ⟨rfl, rfl, rfl, rfl⟩

/-- Claim C10: encoding an empty argument sequence with `_parse_args`
returns exactly the two-character text `"()"`. -/
theorem claim_C10_empty_args : _parse_args [] = "()" := rfl

/-- Claim C2, counterexample: the claim says the `ProtocolError` detail is
the remainder of the response text after the sentinel; on the response
`"eXYZ"` the code raises `Exception("eXYZ")` carrying the whole response
text, not the remainder `"XYZ"`. -/
theorem claim_C2_counterexample :
    call_femm_decode (fun _ => PyVal.list []) "eXYZ"
      = Except.error (PyErr.exception "eXYZ")
    ∧ ("eXYZ" : String).drop 1 = "XYZ"
    ∧ PyErr.exception "eXYZ" ≠ PyErr.exception (("eXYZ" : String).drop 1) :=
  ⟨rfl, rfl, by decide⟩

/-- Claim C2 (amended): for every response text whose first character is the
error sentinel `'e'`, submitting fails with the engine-error exception whose
detail is the ENTIRE response text (sentinel included), and no decoded value
is returned, regardless of what follows the sentinel and of what `eval`
would produce. -/
theorem claim_C2_amended_error_sentinel (evalFn : String → PyVal) (res : String)
    (h1 : res.length ≠ 0) (h2 : res.front = 'e') :
    call_femm_decode evalFn res = Except.error (PyErr.exception res) := by
  unfold call_femm_decode
  rw [if_neg h1, if_pos h2]

/-- Claim C2, witness: the amended theorem applied to the concrete response
`"error: bad"`. -/
theorem claim_C2_amended_witness :
    call_femm_decode (fun _ => PyVal.list []) "error: bad"
      = Except.error (PyErr.exception "error: bad") :=
  claim_C2_amended_error_sentinel (fun _ => PyVal.list []) "error: bad"
    (by decide) (by decide)

/-- Claim C3: for every non-error response, the empty response text decodes
to the empty result list; a payload whose `eval` is a one-element list
decodes to that single element unwrapped to a scalar; and a payload whose
`eval` is a list of `k > 1` values decodes to exactly that list, in source
order. -/
theorem claim_C3_decode_shape (evalFn : String → PyVal) (res : String) (l : List PyVal)
    (h1 : res.length ≠ 0) (h2 : res.front ≠ 'e') (hev : evalFn res = PyVal.list l) :
    call_femm_decode evalFn "" = Except.ok (PyVal.list [])
    ∧ (l.length = 1 → call_femm_decode evalFn res = Except.ok l.headI)
    ∧ (1 < l.length → call_femm_decode evalFn res = Except.ok (PyVal.list l)) := by
  refine ⟨rfl, ?_, ?_⟩
  · intro hlen
    obtain ⟨v, rfl⟩ : ∃ v, l = [v] := by
      cases l with
      | nil => simp at hlen
      | cons v t =>
        cases t with
        | nil => exact ⟨v, rfl⟩
        | cons b t2 => simp at hlen
    unfold call_femm_decode
    rw [if_neg h1, if_neg h2, hev]
    rfl
  · intro hlen
    unfold call_femm_decode
    rw [if_neg h1, if_neg h2, hev]
    show (if l.length = 1 then pyGet0 (PyVal.list l) else Except.ok (PyVal.list l))
        = Except.ok (PyVal.list l)
    rw [if_neg (by omega : ¬ l.length = 1)]

/-- Claim C3, witness: the theorem applied to the concrete response
`"[1, 2]"` whose `eval` is the two-element list `[1, 2]`. -/
theorem claim_C3_witness :
    call_femm_decode (fun _ => PyVal.list [PyVal.num 1, PyVal.num 2]) ""
        = Except.ok (PyVal.list [])
    ∧ ([PyVal.num 1, PyVal.num 2].length = 1 →
        call_femm_decode (fun _ => PyVal.list [PyVal.num 1, PyVal.num 2]) "[1, 2]"
          = Except.ok ([PyVal.num 1, PyVal.num 2]).headI)
    ∧ (1 < [PyVal.num 1, PyVal.num 2].length →
        call_femm_decode (fun _ => PyVal.list [PyVal.num 1, PyVal.num 2]) "[1, 2]"
          = Except.ok (PyVal.list [PyVal.num 1, PyVal.num 2])) :=
  claim_C3_decode_shape (fun _ => PyVal.list [PyVal.num 1, PyVal.num 2]) "[1, 2]"
    [PyVal.num 1, PyVal.num 2] (by decide) (by decide) rfl

/-- Claim C4: every doctype-prefixed command submitted before any mode has
been set fails (Python raises `TypeError` for `None + str`, the failure the
spec names `StateError`) BEFORE anything reaches the engine: the submitted
command is an error rather than a malformed string, uniformly over every
engine behaviour, through `call_femm`, through `BaseAPI._call_femm`, and
through `call_femm_with_args`. -/
theorem claim_C4_no_mode_fails_before_send
    (mlab2femm : String → String) (evalFn : String → PyVal)
    (mp s command : String) (args : List Arg) :
    submitted_command none s true
        = Except.error (PyErr.typeError "unsupported operand types for +: NoneType and str")
    ∧ api_call_femm mlab2femm evalFn none mp s true
        = Except.error (PyErr.typeError "unsupported operand types for +: NoneType and str")
    ∧ call_femm_with_args mlab2femm evalFn none command args true
        = Except.error (PyErr.typeError "unsupported operand types for +: NoneType and str") :=
  ⟨rfl, rfl, rfl⟩

/-- Claim C6: for every shape point list and center, `draw_polyline_pattern`
with `repeat = 0` fails with the division-by-zero error (the spec's
`InvalidArgument` case) coming from `2π / repeat`. -/
theorem claim_C6_zero_copies (fm : FloatModel) (points : List Point) (center : Point) :
    draw_polyline_pattern fm points center 0 = Except.error PyErr.zeroDivisionError := rfl

/-- Folding the pattern loop over indices that are all nonzero appends one
rotated copy per index, in order. -/
theorem foldl_skip0_append (g : ℕ → List Point) :
    ∀ (l : List ℕ) (acc : List (List Point)), (∀ i ∈ l, i ≠ 0) →
      l.foldl (fun ret i => if i = 0 then ret else ret ++ [g i]) acc
        = acc ++ l.map g := by
  intro l
  induction l with
  | nil => intro acc _; simp
  | cons i t ih =>
    intro acc h
    have hi : i ≠ 0 := h i (by simp)
    simp only [List.foldl_cons, List.map_cons, if_neg hi]
    rw [ih (acc ++ [g i]) (fun j hj => h j (by simp [hj]))]
    simp

/-- Closed form of the pattern loop: the original shape followed by the
copies for indices `1 .. rep-1` in order. -/
theorem pattern_fold_eq (g : ℕ → List Point) (points : List Point) (m : ℕ) :
    pattern_fold g points (m + 1)
      = [points] ++ (List.range m).map (fun i => g (i + 1)) := by
  unfold pattern_fold
  rw [List.range_succ_eq_map]
  simp only [List.foldl_cons, reduceIte]
  rw [foldl_skip0_append g _ _ (by
    intro i hi
    simp only [List.mem_map] at hi
    obtain ⟨j, _, rfl⟩ := hi
    exact Nat.succ_ne_zero j)]
  simp [List.map_map, Function.comp]

/-- Claim C5: for every shape, center and `repeat ≥ 1`,
`draw_polyline_pattern` returns an ordered collection of exactly `repeat`
shapes whose element at index 0 is the input shape unchanged; with
`repeat = 1` it returns exactly the one original shape, with no rotation
applied. -/
theorem claim_C5_pattern (fm : FloatModel) (points : List Point) (center : Point)
    (rep : ℕ) (h : 1 ≤ rep) :
    ∃ ret, draw_polyline_pattern fm points center rep = Except.ok ret
      ∧ ret.length = rep
      ∧ ret.head? = some points
      ∧ (rep = 1 → ret = [points]) := by
  obtain ⟨m, rfl⟩ : ∃ m, rep = m + 1 := ⟨rep - 1, by omega⟩
  unfold draw_polyline_pattern
  rw [if_neg (by omega : ¬ (m + 1) = 0)]
  refine ⟨_, rfl, ?_, ?_, ?_⟩
  · rw [pattern_fold_eq]
    simp [Nat.add_comm]
  · rw [pattern_fold_eq]
    rfl
  · intro h1
    have hm : m = 0 := by omega
    subst hm
    rw [pattern_fold_eq]
    simp

/-- Claim C5, witness: the theorem applied at a concrete one-point shape,
the origin as center, and two copies. -/
theorem claim_C5_witness :
    ∃ ret, draw_polyline_pattern ⟨0, fun _ => 1, fun _ => 0, fun x => x⟩
        [((0 : ℚ), (0 : ℚ))] ((0 : ℚ), (0 : ℚ)) 2 = Except.ok ret
      ∧ ret.length = 2
      ∧ ret.head? = some [((0 : ℚ), (0 : ℚ))]
      ∧ (2 = 1 → ret = [[((0 : ℚ), (0 : ℚ))]]) :=
  claim_C5_pattern ⟨0, fun _ => 1, fun _ => 0, fun x => x⟩
    [((0 : ℚ), (0 : ℚ))] ((0 : ℚ), (0 : ℚ)) 2 (by decide)

/-- The single collapse pass never invents characters: every character of
the output occurs in the input. -/
theorem mem_collapseSlash (l : List Char) (c : Char) (hc : c ∈ collapseSlash l) : c ∈ l := by
  induction l using collapseSlash.induct with
  | case1 => simp [collapseSlash] at hc
  | case2 x => simpa [collapseSlash] using hc
  | case3 a b rest hab ih =>
    rw [collapseSlash, if_pos hab] at hc
    rcases List.mem_cons.mp hc with h | h
    · simp [h, hab.1]
    · simp [ih h]
  | case4 a b rest hab ih =>
    rw [collapseSlash, if_neg hab] at hc
    rcases List.mem_cons.mp hc with h | h
    · simp [h]
    · simp [ih h]

/-- The single collapse pass preserves the first character. -/
theorem collapseSlash_head? : ∀ l : List Char, (collapseSlash l).head? = l.head? := by
  intro l
  cases l with
  | nil => rfl
  | cons a t =>
    cases t with
    | nil => rfl
    | cons b rest =>
      rw [collapseSlash]
      split
      · next h => rw [h.1]; rfl
      · rfl

/-- Dropping the first character preserves the absence of a triple slash. -/
theorem hasRun3Slash_tail (a : Char) (t : List Char)
    (h : hasRun3Slash (a :: t) = false) : hasRun3Slash t = false := by
  cases t with
  | nil => rfl
  | cons b u =>
    cases u with
    | nil => rfl
    | cons c v =>
      simp only [hasRun3Slash, Bool.or_eq_false_iff] at h
      exact h.2

/-- Extending a double-slash-free list with a character that does not form a
new `"//"` pair stays double-slash-free. -/
theorem hasDoubleSlash_cons_false (x : Char) (t : List Char)
    (hx : ∀ b, t.head? = some b → ¬(x = '/' ∧ b = '/'))
    (ht : hasDoubleSlash t = false) : hasDoubleSlash (x :: t) = false := by
  cases t with
  | nil => rfl
  | cons b u =>
    have hxb := hx b rfl
    simp only [hasDoubleSlash, Bool.or_eq_false_iff]
    refine ⟨?_, ht⟩
    by_cases hxs : x = '/'
    · by_cases hbs : b = '/'
      · exact absurd ⟨hxs, hbs⟩ hxb
      · simp [hbs]
    · simp [hxs]

/-- On inputs with no run of three forward slashes, the single collapse pass
removes every doubled slash. -/
theorem collapseSlash_no_double (l : List Char) (h : hasRun3Slash l = false) :
    hasDoubleSlash (collapseSlash l) = false := by
  induction l using collapseSlash.induct with
  | case1 => rfl
  | case2 x => rfl
  | case3 a b rest hab ih =>
    rw [collapseSlash, if_pos hab]
    refine hasDoubleSlash_cons_false _ _ ?_ (ih ?_)
    · intro x hxhead hpair
      rw [collapseSlash_head?] at hxhead
      cases rest with
      | nil => simp at hxhead
      | cons r0 r1 =>
        have hr0 : r0 = '/' := by
          simp only [List.head?] at hxhead
          injection hxhead with hx0
          rw [hx0]
          exact hpair.2
        rw [hab.1, hab.2, hr0] at h
        simp [hasRun3Slash] at h
    · exact hasRun3Slash_tail _ _ (hasRun3Slash_tail _ _ h)
  | case4 a b rest hab ih =>
    rw [collapseSlash, if_neg hab]
    refine hasDoubleSlash_cons_false _ _ ?_ (ih (hasRun3Slash_tail _ _ h))
    intro x hxhead hpair
    rw [collapseSlash_head?] at hxhead
    simp only [List.head?] at hxhead
    injection hxhead with hx0
    exact hab ⟨hpair.1, by rw [hx0]; exact hpair.2⟩

/-- `_fix_path` output never contains a backslash. -/
theorem fix_path_no_backslash (path : String) : '\\' ∉ (_fix_path path).data := by
  intro hmem
  have h1 : '\\' ∈ replaceBackslash path.data := mem_collapseSlash _ _ hmem
  simp only [replaceBackslash, List.mem_map] at h1
  obtain ⟨c, _, hc⟩ := h1
  split_ifs at hc with hcb
  · exact absurd hc (by decide)
  · exact hcb hc

/-- Claim C8, counterexample: the claim says the normalized path never
contains two consecutive forward slashes, but on `"a///b"` Python's single
non-overlapping replacement pass leaves `"a//b"`, which still contains
`"//"`. -/
theorem claim_C8_counterexample :
    _fix_path "a///b" = "a//b"
    ∧ hasDoubleSlash (_fix_path "a///b").data = true := by
  constructor
  · decide
  · decide

/-- Claim C8 (amended): for every input path, `_fix_path` returns a path
with no backslash characters; and whenever the input, with separators
normalized, contains no run of three consecutive slashes, the result also
contains no two consecutive forward slashes. (In general, runs of three or
more separators can leave `"//"`, because the collapse is one left-to-right
non-overlapping pass, not a fixpoint.) -/
theorem claim_C8_amended_normalization (path : String)
    (h : hasRun3Slash (replaceBackslash path.data) = false) :
    '\\' ∉ (_fix_path path).data
    ∧ hasDoubleSlash (_fix_path path).data = false := by
  constructor
  · exact fix_path_no_backslash path
  · exact collapseSlash_no_double _ h

/-- Claim C8, witness: the amended theorem applied to the concrete path
`C:\work//proj`. -/
theorem claim_C8_witness :
    hasRun3Slash (replaceBackslash ("C:\\work//proj" : String).data) = false
    ∧ ('\\' ∉ (_fix_path "C:\\work//proj").data
        ∧ hasDoubleSlash (_fix_path "C:\\work//proj").data = false) :=
  ⟨by decide, claim_C8_amended_normalization "C:\\work//proj" (by decide)⟩

/-- Decimal digit characters really are digits. -/
theorem decDigit_isDigit (d : ℕ) (hd : d < 10) : (decDigit d).isDigit = true := by
  interval_cases d <;> decide

/-- Code point of a decimal digit character. -/
theorem decDigit_toNat (d : ℕ) (hd : d < 10) : (decDigit d).toNat = 48 + d := by
  interval_cases d <;> decide

/-- Decimal renderings are never empty. -/
theorem natToChars_ne_nil (n : ℕ) : natToChars n ≠ [] := by
  rw [natToChars]
  split
  · simp
  · simp

/-- Every character of a decimal rendering is a digit. -/
theorem natToChars_all_digits (n : ℕ) : ∀ c ∈ natToChars n, c.isDigit = true := by
  induction n using natToChars.induct with
  | case1 n h =>
    intro c hc
    rw [natToChars, dif_pos h] at hc
    simp at hc
    rw [hc]
    exact decDigit_isDigit n h
  | case2 n h ih =>
    intro c hc
    rw [natToChars, dif_neg h] at hc
    rcases List.mem_append.mp hc with h1 | h1
    · exact ih c h1
    · simp at h1
      rw [h1]
      exact decDigit_isDigit _ (Nat.mod_lt _ (by omega))

/-- Appending one digit multiplies the denoted value by ten and adds it. -/
theorem digitsVal_append_digit (xs : List Char) (d : Char) :
    digitsVal (xs ++ [d]) = 10 * digitsVal xs + (d.toNat - 48) := by
  simp [digitsVal, List.foldl_append]

/-- The decimal rendering denotes the number it was built from. -/
theorem digitsVal_natToChars (n : ℕ) : digitsVal (natToChars n) = n := by
  induction n using natToChars.induct with
  | case1 n h =>
    rw [natToChars, dif_pos h]
    simp [digitsVal, decDigit_toNat n h]
  | case2 n h ih =>
    rw [natToChars, dif_neg h, digitsVal_append_digit, ih,
      decDigit_toNat (n % 10) (Nat.mod_lt _ (by omega))]
    omega

/-- `takeWhile`/`dropWhile` split exactly at the boundary between a block of
characters satisfying the predicate and a remainder that opens with one
falsifying it. -/
theorem takeWhile_append_of_all {P : Char → Bool} :
    ∀ (xs rest : List Char), (∀ c ∈ xs, P c = true) →
      (∀ c ∈ rest.head?, P c = false) →
      (xs ++ rest).takeWhile P = xs ∧ (xs ++ rest).dropWhile P = rest := by
  intro xs
  induction xs with
  | nil =>
    intro rest _ hrest
    cases rest with
    | nil => simp
    | cons r t =>
      have hr := hrest r rfl
      simp [List.takeWhile, List.dropWhile, hr]
  | cons x xs ih =>
    intro rest hxs hrest
    have hx : P x = true := hxs x (by simp)
    have h := ih rest (fun c hc => hxs c (by simp [hc])) hrest
    simp [List.takeWhile_cons, List.dropWhile_cons, hx, h.1, h.2]

/-- The natural-literal parser inverts the decimal rendering when the
remainder does not open with another digit. -/
theorem parseNatLit_append (n : ℕ) (rest : List Char)
    (hrest : ∀ c ∈ rest.head?, c.isDigit = false) :
    parseNatLit (natToChars n ++ rest) = some (n, rest) := by
  obtain ⟨h1, h2⟩ := takeWhile_append_of_all (natToChars n) rest (natToChars_all_digits n) hrest
  simp only [parseNatLit, h1, h2]
  rw [if_neg (natToChars_ne_nil n), digitsVal_natToChars]

/-- A digit character differs from any non-digit character. -/
theorem isDigit_ne_of (c x : Char) (hx : x.isDigit = false) (hc : c.isDigit = true) :
    ¬ c = x := by
  intro h
  rw [h] at hc
  rw [hc] at hx
  exact absurd hx (by decide)

/-- A decimal rendering decomposes as a digit head and a tail. -/
theorem natToChars_cons (m : ℕ) : ∃ c t, natToChars m = c :: t ∧ c.isDigit = true := by
  cases hcase : natToChars m with
  | nil => exact absurd hcase (natToChars_ne_nil m)
  | cons c t =>
    refine ⟨c, t, rfl, natToChars_all_digits m c ?_⟩
    rw [hcase]
    simp

/-- Recovering the digit values from their rendered characters. -/
theorem map_val_decDigit (l : List ℕ) (hl : ∀ d ∈ l, d < 10) :
    List.map (fun c => c.toNat - 48) (List.map decDigit l) = l := by
  induction l with
  | nil => rfl
  | cons d t ih =>
    simp only [List.map_cons]
    rw [ih (fun x hx => hl x (by simp [hx]))]
    simp [decDigit_toNat d (hl d (by simp))]

/-- On an integer rendering followed by a remainder that opens with neither
a digit nor a point, the unsigned-number parser returns the integer
literal. -/
theorem parseUnsignedNum_int (n : ℕ) (rest : List Char)
    (hrest : ∀ c ∈ rest.head?, c.isDigit = false ∧ c ≠ '.') :
    parseUnsignedNum (natToChars n ++ rest) = some (Arg.num (n : ℤ), rest) := by
  have hni : ¬ rest.head? = some '.' := by
    intro h
    cases rest with
    | nil => simp at h
    | cons c t =>
      simp at h
      exact (hrest c rfl).2 h
  simp only [parseUnsignedNum]
  rw [parseNatLit_append n rest (fun c hc => (hrest c hc).1), Option.some_bind]
  simp only [parseFracOrInt]
  rw [if_neg hni]

/-- On a decimal rendering followed by a non-digit remainder, the
unsigned-number parser returns the decimal literal with its exact sign,
integer part and fractional digits. -/
theorem parseUnsignedNum_float (ip : ℕ) (fd : List ℕ) (rest : List Char)
    (hfd : fd ≠ []) (hd10 : ∀ d ∈ fd, d < 10)
    (hrest : ∀ c ∈ rest.head?, c.isDigit = false) :
    parseUnsignedNum (natToChars ip ++ ('.' :: (fd.map decDigit ++ rest)))
      = some (Arg.float false ip fd, rest) := by
  simp only [parseUnsignedNum]
  rw [parseNatLit_append ip ('.' :: (fd.map decDigit ++ rest))
    (by intro c hc; simp at hc; subst hc; decide), Option.some_bind]
  obtain ⟨h1, h2⟩ := takeWhile_append_of_all (P := Char.isDigit) (fd.map decDigit) rest
    (by
      intro c hc
      simp only [List.mem_map] at hc
      obtain ⟨d, hd, rfl⟩ := hc
      exact decDigit_isDigit d (hd10 d hd))
    hrest
  simp only [parseFracOrInt, List.head?_cons, List.tail_cons, if_true]
  rw [h1, h2]
  rw [if_neg (by simp [hfd])]
  rw [map_val_decDigit fd hd10]

/-- The number-literal parser inverts `str` on integers when the remainder
opens with neither a digit nor a point. -/
theorem parseNumLit_int (n : ℤ) (rest : List Char)
    (hrest : ∀ c ∈ rest.head?, c.isDigit = false ∧ c ≠ '.') :
    parseNumLit (intToChars n ++ rest) = some (Arg.num n, rest) := by
  unfold intToChars
  split
  · next hneg =>
    rw [List.cons_append]
    simp only [parseNumLit, if_pos rfl]
    rw [parseUnsignedNum_int n.natAbs rest hrest]
    simp only [Option.map_some', negArg]
    have h0 : (-(n.natAbs : ℤ)) = n := by omega
    rw [h0]
    simp
  · next hpos =>
    obtain ⟨c, t, hct, hcdig⟩ := natToChars_cons n.natAbs
    have hcne : ¬ c = '-' := isDigit_ne_of c '-' (by decide) hcdig
    rw [hct, List.cons_append]
    simp only [parseNumLit, if_neg hcne]
    rw [← List.cons_append, ← hct, parseUnsignedNum_int n.natAbs rest hrest]
    have h0 : ((n.natAbs : ℤ)) = n := by omega
    rw [h0]

/-- The number-literal parser inverts `str` on floats (given by their
decimal-rendering data) when the remainder does not open with a digit. -/
theorem parseNumLit_float (neg : Bool) (ip : ℕ) (fd : List ℕ) (rest : List Char)
    (hfd : fd ≠ []) (hd10 : ∀ d ∈ fd, d < 10)
    (hrest : ∀ c ∈ rest.head?, c.isDigit = false) :
    parseNumLit ((pyStrOfFloat neg ip fd).data ++ rest)
      = some (Arg.float neg ip fd, rest) := by
  have hsh : (natToChars ip ++ '.' :: List.map decDigit fd) ++ rest
      = natToChars ip ++ ('.' :: (List.map decDigit fd ++ rest)) := by
    simp [List.append_assoc]
  cases neg with
  | true =>
    have hdata : (pyStrOfFloat true ip fd).data
        = '-' :: (natToChars ip ++ '.' :: List.map decDigit fd) := rfl
    rw [hdata, List.cons_append, hsh]
    simp only [parseNumLit, if_pos rfl]
    rw [parseUnsignedNum_float ip fd rest hfd hd10 hrest]
    simp only [Option.map_some', negArg]
    simp
  | false =>
    have hdata : (pyStrOfFloat false ip fd).data
        = natToChars ip ++ '.' :: List.map decDigit fd := rfl
    rw [hdata, hsh]
    obtain ⟨c, t, hct, hcdig⟩ := natToChars_cons ip
    have hcne : ¬ c = '-' := isDigit_ne_of c '-' (by decide) hcdig
    rw [hct, List.cons_append]
    simp only [parseNumLit, if_neg hcne]
    rw [← List.cons_append, ← hct, parseUnsignedNum_float ip fd rest hfd hd10 hrest]

/-- The item parser inverts the encoding of an integer argument. -/
theorem parseItem_num (n : ℤ) (rest : List Char)
    (hrest : ∀ c ∈ rest.head?, c.isDigit = false ∧ c ≠ '.') :
    parseItem (intToChars n ++ rest) = some (Arg.num n, rest) := by
  have hhead : ∃ c t, intToChars n = c :: t ∧ ¬ c = '"' := by
    unfold intToChars
    split
    · exact ⟨'-', _, rfl, by decide⟩
    · obtain ⟨c, t, hct, hcd⟩ := natToChars_cons n.natAbs
      exact ⟨c, t, hct, isDigit_ne_of c '"' (by decide) hcd⟩
  obtain ⟨c, t, hct, hcq⟩ := hhead
  rw [hct, List.cons_append]
  simp only [parseItem, if_neg hcq]
  rw [← List.cons_append, ← hct, parseNumLit_int n rest hrest]

/-- The item parser inverts the encoding of a float argument. -/
theorem parseItem_float (neg : Bool) (ip : ℕ) (fd : List ℕ) (rest : List Char)
    (hfd : fd ≠ []) (hd10 : ∀ d ∈ fd, d < 10)
    (hrest : ∀ c ∈ rest.head?, c.isDigit = false) :
    parseItem ((pyStrOfFloat neg ip fd).data ++ rest)
      = some (Arg.float neg ip fd, rest) := by
  have hhead : ∃ c t, (pyStrOfFloat neg ip fd).data = c :: t ∧ ¬ c = '"' := by
    cases neg with
    | true =>
      exact ⟨'-', natToChars ip ++ '.' :: List.map decDigit fd, rfl, by decide⟩
    | false =>
      obtain ⟨c, t, hct, hcd⟩ := natToChars_cons ip
      refine ⟨c, t ++ '.' :: List.map decDigit fd, ?_, isDigit_ne_of c '"' (by decide) hcd⟩
      show [] ++ (natToChars ip ++ '.' :: List.map decDigit fd)
          = c :: (t ++ '.' :: List.map decDigit fd)
      rw [List.nil_append, hct, List.cons_append]
  obtain ⟨c, t, hct, hcq⟩ := hhead
  rw [hct, List.cons_append]
  simp only [parseItem, if_neg hcq]
  rw [← List.cons_append, ← hct, parseNumLit_float neg ip fd rest hfd hd10 hrest]

/-- The item parser inverts the encoding of a quote-free text argument. -/
theorem parseItem_str (s : String) (rest : List Char) (hq : '"' ∉ s.data) :
    parseItem (('"' :: (s.data ++ ['"'])) ++ rest) = some (Arg.str s, rest) := by
  have hall : ∀ c ∈ s.data, (c != '"') = true := by
    intro c hc
    simp only [bne_iff_ne, ne_eq]
    intro hh
    exact hq (hh ▸ hc)
  have hhead : ∀ c ∈ (('"' :: rest) : List Char).head?, (c != '"') = false := by
    intro c hc
    simp at hc
    subst hc
    decide
  obtain ⟨h1, h2⟩ :=
    takeWhile_append_of_all (P := fun x => x != '"') s.data ('"' :: rest) hall hhead
  have hre : ('"' :: (s.data ++ ['"'])) ++ rest = '"' :: (s.data ++ ('"' :: rest)) := by simp
  rw [hre]
  simp only [parseItem, if_true]
  rw [h2, h1]
  rfl

/-- The item parser inverts `encodeArg` on every well-formed argument when
the remainder opens with neither a digit nor a point. -/
theorem parseItem_encode (a : Arg) (rest : List Char) (hva : validArg a = true)
    (hrest : ∀ c ∈ rest.head?, c.isDigit = false ∧ c ≠ '.') :
    parseItem ((encodeArg a).data ++ rest) = some (a, rest) := by
  cases a with
  | num n => exact parseItem_num n rest hrest
  | float neg ip fd =>
    have hv : fd ≠ [] ∧ ∀ d ∈ fd, d < 10 := of_decide_eq_true hva
    exact parseItem_float neg ip fd rest hv.1 hv.2 (fun c hc => (hrest c hc).1)
  | str s =>
    have hq : '"' ∉ s.data := of_decide_eq_true hva
    exact parseItem_str s rest hq

/-- String append acts as list append on the underlying characters. -/
theorem data_append_eq (u v : String) : (u ++ v).data = u.data ++ v.data := rfl

/-- Encoded arguments are never empty text. -/
theorem encodeArg_data_ne_nil (a : Arg) : (encodeArg a).data ≠ [] := by
  cases a with
  | str s => simp [encodeArg, data_append_eq]
  | num n =>
    show intToChars n ≠ []
    unfold intToChars
    split
    · simp
    · exact natToChars_ne_nil _
  | float neg ip fd =>
    show (if neg then ['-'] else []) ++ (natToChars ip ++ '.' :: List.map decDigit fd) ≠ []
    cases neg <;> simp

/-- The joined encoding of a non-empty argument list is non-empty text. -/
theorem join_data_ne_nil (a : Arg) (as : List Arg) :
    (joinComma (List.map encodeArg (a :: as))).data ≠ [] := by
  cases as with
  | nil => exact encodeArg_data_ne_nil a
  | cons b bs =>
    show ((encodeArg a ++ ", " ++ joinComma (List.map encodeArg (b :: bs))).data ≠ [])
    simp only [data_append_eq]
    simp [encodeArg_data_ne_nil a]

/-- The number of arguments is bounded by the length of their joined
encoding plus one (each encoded item takes at least one character and each
separator two). -/
theorem len_le_join : ∀ (args : List Arg),
    args.length ≤ (joinComma (args.map encodeArg)).data.length + 1 := by
  intro args
  induction args with
  | nil => simp
  | cons a as ih =>
    cases as with
    | nil => simp
    | cons b bs =>
      have hj : joinComma (List.map encodeArg (a :: b :: bs))
          = encodeArg a ++ ", " ++ joinComma (List.map encodeArg (b :: bs)) := rfl
      rw [hj]
      simp only [data_append_eq, List.length_append, List.length_cons]
      have hne : (encodeArg a).data.length ≥ 1 := by
        have h := encodeArg_data_ne_nil a
        cases hcase : (encodeArg a).data with
        | nil => exact absurd hcase h
        | cons c t => simp [hcase]
      simp only [List.length_cons] at ih ⊢
      have hcl : (", " : String).data.length = 2 := rfl
      omega

/-- A closing parenthesis is neither a digit nor a point. -/
theorem head_sep_paren :
    ∀ c ∈ (([')'] : List Char)).head?, c.isDigit = false ∧ c ≠ '.' := by
  intro c hc
  simp at hc
  subst hc
  exact ⟨by decide, by decide⟩

/-- A comma is neither a digit nor a point. -/
theorem head_sep_comma (t : List Char) :
    ∀ c ∈ ((',' :: t : List Char)).head?, c.isDigit = false ∧ c ≠ '.' := by
  intro c hc
  simp at hc
  subst hc
  exact ⟨by decide, by decide⟩

/-- The item-sequence parser inverts the `", "`-joined encoding of any
non-empty well-formed argument list, leaving the closing parenthesis. -/
theorem parseItemsAux_enc : ∀ (args : List Arg) (fuel : ℕ), args ≠ [] →
    (∀ a ∈ args, validArg a = true) → args.length ≤ fuel →
    parseItemsAux fuel ((joinComma (args.map encodeArg)).data ++ [')'])
      = some (args, [')']) := by
  intro args
  induction args with
  | nil => intro fuel h; exact absurd rfl h
  | cons a as ih =>
    intro fuel _ hq hlen
    obtain ⟨f, rfl⟩ : ∃ f, fuel = f + 1 :=
      ⟨fuel - 1, by
        have h1 : 1 ≤ fuel := le_trans (by simp) hlen
        omega⟩
    cases as with
    | nil =>
      rw [show joinComma (List.map encodeArg [a]) = encodeArg a from rfl]
      simp only [parseItemsAux]
      rw [parseItem_encode a [')'] (hq a (by simp)) head_sep_paren]
      rfl
    | cons b bs =>
      rw [show joinComma (List.map encodeArg (a :: b :: bs))
            = encodeArg a ++ ", " ++ joinComma (List.map encodeArg (b :: bs)) from rfl]
      have hdata : (encodeArg a ++ ", " ++ joinComma (List.map encodeArg (b :: bs))).data ++ [')']
          = (encodeArg a).data
            ++ (',' :: ' ' :: ((joinComma (List.map encodeArg (b :: bs))).data ++ [')'])) := by
        simp only [data_append_eq]
        simp [List.append_assoc]
      rw [hdata]
      simp only [parseItemsAux]
      rw [parseItem_encode a _ (hq a (by simp)) (head_sep_comma _)]
      show (match parseItemsAux f ((joinComma (List.map encodeArg (b :: bs))).data ++ [')']) with
        | some p => some (a :: p.1, p.2)
        | none => none) = some (a :: b :: bs, [')'])
      rw [ih f (by simp) (fun x hx => hq x (by simp [hx]))
        (by simp only [List.length_cons] at hlen ⊢; omega)]

/-- Claim C7: for every ordered argument list of numbers (Python integers
and floats, a float given by the data of its decimal rendering) and text
literals without embedded double quotes, encoding the list with
`_parse_args` (each text argument wrapped verbatim in double quotes, each
number in its natural decimal form, joined by `", "` and wrapped in
parentheses) and then parsing the produced text with the engine's literal
grammar yields back the original values in order. -/
theorem claim_C7_encode_roundtrip (args : List Arg)
    (hq : ∀ a ∈ args, validArg a = true) :
    decodeArgs (_parse_args args) = some args := by
  cases args with
  | nil => rfl
  | cons a as =>
    have hdata : (_parse_args (a :: as)).data
        = '(' :: ((joinComma (List.map encodeArg (a :: as))).data ++ [')']) := by
      simp only [_parse_args, data_append_eq]
      simp [List.append_assoc]
    show decodeArgsList (_parse_args (a :: as)).data = some (a :: as)
    rw [hdata]
    show (if ((joinComma (List.map encodeArg (a :: as))).data ++ [')']) = [')'] then some []
      else
        match
          parseItemsAux ((((joinComma (List.map encodeArg (a :: as))).data ++ [')'])).length + 1)
            ((joinComma (List.map encodeArg (a :: as))).data ++ [')']) with
        | some p => if p.2 = [')'] then some p.1 else none
        | none => none) = some (a :: as)
    rw [if_neg (by
      intro h
      have hlen := congrArg List.length h
      simp at hlen
      exact join_data_ne_nil a as (List.length_eq_zero.mp hlen))]
    rw [parseItemsAux_enc (a :: as) _ (by simp) hq (by
      have h1 := len_le_join (a :: as)
      simp only [List.length_cons] at h1
      simp only [List.length_append, List.length_cons, List.length_nil]
      omega)]
    rfl

/-- Claim C7, witness: the round trip applied to the concrete argument list
`(3, "ab c", 1.5, -0.25, -12)`, exercising integers, floats and text. -/
theorem claim_C7_witness :
    (∀ a ∈ [Arg.num 3, Arg.str "ab c", Arg.float false 1 [5],
        Arg.float true 0 [2, 5], Arg.num (-12)], validArg a = true)
    ∧ decodeArgs (_parse_args [Arg.num 3, Arg.str "ab c", Arg.float false 1 [5],
        Arg.float true 0 [2, 5], Arg.num (-12)])
        = some [Arg.num 3, Arg.str "ab c", Arg.float false 1 [5],
            Arg.float true 0 [2, 5], Arg.num (-12)] :=
  ⟨by decide, claim_C7_encode_roundtrip _ (by decide)⟩
